import Mathlib

/-!
Verification of the core logic of the three.js Minecraft demo
(`src/pages/MinecraftGame.tsx`): the sum-of-sines height field, the
chunk builder and world assembler, the look/pitch accumulators, the
per-tick camera movement, hotbar digit selection, and the arm-swing
oscillator.  Real-number arithmetic in the source is embedded as `ℝ`;
exact rational constants (hotbar indices, arm-swing decay) use `ℕ`/`ℚ`.
-/

/-- `CHUNK_SIZE = 12` from the source. -/
def CHUNK_SIZE : ℕ := 12

/-- `RENDER_DISTANCE = 3` from the source. -/
def RENDER_DISTANCE : ℕ := 3

/-- The height-field `noise` function:
`sin(0.1x)·cos(0.1z)·3 + sin(0.2x)·cos(0.2z)·1.5 + sin(0.4x)·cos(0.4z)·0.75`,
written exactly as in the source (`xx = x*0.1`, `zz = z*0.1`, octaves at
`xx`, `xx*2`, `xx*4`). -/
noncomputable def noise (x z : ℝ) : ℝ :=
  let xx := x * 0.1
  let zz := z * 0.1
  Real.sin xx * Real.cos zz * 3 +
    Real.sin (xx * 2) * Real.cos (zz * 2) * 1.5 +
    Real.sin (xx * 4) * Real.cos (zz * 4) * 0.75

/-- Block elevation of a world column: `Math.floor(noise(worldX, worldZ) + 8)`. -/
noncomputable def blockHeight (wx wz : ℤ) : ℤ :=
  ⌊noise (wx : ℝ) (wz : ℝ) + 8⌋

/-- A positioned block: the centre of the translated unit cube
(`geo.translate(worldX, height, worldZ)`). -/
noncomputable def blockAt (wx wz : ℤ) : ℤ × ℤ × ℤ :=
  (wx, blockHeight wx wz, wz)

/-- The world columns enumerated by `createMergedChunk`'s double loop:
outer `x` in `[0, CHUNK_SIZE)`, inner `z` in `[0, CHUNK_SIZE)`, each
mapped to `(cx·CHUNK_SIZE + x, cz·CHUNK_SIZE + z)`. -/
def chunkColumns (cx cz : ℤ) : List (ℤ × ℤ) :=
  (List.range CHUNK_SIZE).flatMap fun (x : ℕ) =>
    (List.range CHUNK_SIZE).map fun (z : ℕ) =>
      (cx * (CHUNK_SIZE : ℤ) + (x : ℤ), cz * (CHUNK_SIZE : ℤ) + (z : ℤ))

/-- The `geometries` array built by `createMergedChunk`: one translated
clone of the unit-cube geometry per column, a geometry being modelled as
the list of cube centres it contains. -/
noncomputable def chunkGeometries (cx cz : ℤ) : List (List (ℤ × ℤ × ℤ)) :=
  (chunkColumns cx cz).map fun c => [blockAt c.1 c.2]

/-- `createMergedChunk(cx, cz)`: if the geometry list is non-empty, merge
all geometries when `THREE.BufferGeometryUtils.mergeGeometries` is
available, else fall back to `geometries[0]`; an empty list yields the
fresh empty `mergedGeometry`. -/
noncomputable def createMergedChunk (mergeAvailable : Bool) (cx cz : ℤ) :
    List (ℤ × ℤ × ℤ) :=
  if 0 < (chunkGeometries cx cz).length then
    if mergeAvailable then (chunkGeometries cx cz).flatten
    else (chunkGeometries cx cz).headD []
  else []

/-- The chunk coordinates visited by the world-assembly loop
`for (cx = -RENDER_DISTANCE; cx < RENDER_DISTANCE; cx++)` with the same
inner loop over `cz`. -/
def worldChunkCoords : List (ℤ × ℤ) :=
  (List.range (2 * RENDER_DISTANCE)).flatMap fun (i : ℕ) =>
    (List.range (2 * RENDER_DISTANCE)).map fun (j : ℕ) =>
      ((i : ℤ) - (RENDER_DISTANCE : ℤ), (j : ℤ) - (RENDER_DISTANCE : ℤ))

/-- All blocks of the assembled world: the concatenation of every chunk's
merged geometry. -/
noncomputable def worldBlocks (mergeAvailable : Bool) : List (ℤ × ℤ × ℤ) :=
  worldChunkCoords.flatMap fun c => createMergedChunk mergeAvailable c.1 c.2


/-- three.js `Vector3`, restricted to the fields the game uses. -/
structure Vec3 where
  x : ℝ
  y : ℝ
  z : ℝ

/-- `Vector3.length()`: the Euclidean norm. -/
noncomputable def Vec3.length (v : Vec3) : ℝ :=
  Real.sqrt (v.x ^ 2 + v.y ^ 2 + v.z ^ 2)

/-- `Vector3.normalize()`, which divides by `this.length() || 1`: a zero
vector is divided by 1 and so stays zero. -/
noncomputable def Vec3.normalize (v : Vec3) : Vec3 :=
  ⟨v.x / (if v.length = 0 then 1 else v.length),
   v.y / (if v.length = 0 then 1 else v.length),
   v.z / (if v.length = 0 then 1 else v.length)⟩

/-- `Vector3.add`. -/
def Vec3.add (v w : Vec3) : Vec3 := ⟨v.x + w.x, v.y + w.y, v.z + w.z⟩

/-- `Vector3.addScaledVector`. -/
def Vec3.addScaledVector (v w : Vec3) (s : ℝ) : Vec3 :=
  ⟨v.x + w.x * s, v.y + w.y * s, v.z + w.z * s⟩

/-- The movement-relevant input state read by one `animate` tick: the four
WASD held-key booleans and the cached left-stick axes of `gamepadState`. -/
structure MoveInput where
  keyW : Bool
  keyS : Bool
  keyA : Bool
  keyD : Bool
  stickX : ℝ
  stickY : ℝ

/-- The dead-zone filter of `updateGamepad`:
`Math.abs(axis) > 0.1 ? axis : 0`. -/
noncomputable def applyDeadZone (v : ℝ) : ℝ := if |v| > 0.1 then v else 0

/-- The `direction` vector after the four guarded assignments of `animate`:
`direction.set(0,0,0)`, then `z = -1` on W / stick-up, overwritten by
`z = 1` on S / stick-down, and likewise `x = -1` then `x = 1`; a later
assignment wins, so the S and D conditions take precedence. -/
noncomputable def rawDirection (inp : MoveInput) : Vec3 :=
  ⟨if inp.keyD = true ∨ inp.stickX > 0.1 then 1
    else if inp.keyA = true ∨ inp.stickX < -0.1 then -1 else 0,
   0,
   if inp.keyS = true ∨ inp.stickY > 0.1 then 1
    else if inp.keyW = true ∨ inp.stickY < -0.1 then -1 else 0⟩

/-- The per-tick forward vector `(sin yaw, 0, cos yaw)`. -/
noncomputable def forwardVec (yaw : ℝ) : Vec3 := ⟨Real.sin yaw, 0, Real.cos yaw⟩

/-- The per-tick right vector `(sin(yaw + π/2), 0, cos(yaw + π/2))`. -/
noncomputable def rightVec (yaw : ℝ) : Vec3 :=
  ⟨Real.sin (yaw + Real.pi / 2), 0, Real.cos (yaw + Real.pi / 2)⟩

/-- The `velocity` of one `animate` tick: `velocity.set(0,0,0)`, then
`addScaledVector(forward, -direction.z * moveSpeed)` and
`addScaledVector(right, direction.x * moveSpeed)` with `moveSpeed = 0.15`,
where `direction` is the normalized raw direction. -/
noncomputable def tickVelocity (yaw : ℝ) (inp : MoveInput) : Vec3 :=
  ((⟨0, 0, 0⟩ : Vec3).addScaledVector (forwardVec yaw)
      (-(rawDirection inp).normalize.z * 0.15)).addScaledVector
    (rightVec yaw) ((rawDirection inp).normalize.x * 0.15)

/-- `camera.position.add(velocity)`: the camera position after one tick. -/
noncomputable def cameraTickPos (pos : Vec3) (yaw : ℝ) (inp : MoveInput) : Vec3 :=
  pos.add (tickVelocity yaw inp)

/-- The pitch clamp applied after every pitch write:
`Math.max(-π/2, Math.min(π/2, pitch))`. -/
noncomputable def clampPitch (p : ℝ) : ℝ :=
  max (-(Real.pi / 2)) (min (Real.pi / 2) p)

/-- `handleMouseMove` on `(yaw, pitch)`: a no-op unless pointer lock is
engaged; when engaged, `yaw -= movementX * 0.002`,
`pitch -= movementY * 0.002`, then the pitch clamp. -/
noncomputable def handleMouseMove (isPointerLocked : Bool)
    (yaw pitch movementX movementY : ℝ) : ℝ × ℝ :=
  if isPointerLocked then
    (yaw - movementX * 0.002, clampPitch (pitch - movementY * 0.002))
  else (yaw, pitch)

/-- The right-stick look update of `updateGamepad`:
`yaw -= x * 0.05`, `pitch -= y * 0.05`, then the pitch clamp. -/
noncomputable def gamepadLook (yaw pitch rsx rsy : ℝ) : ℝ × ℝ :=
  (yaw - rsx * 0.05, clampPitch (pitch - rsy * 0.05))

/-- One event that writes yaw/pitch: a mouse move (with the pointer-lock
gate) or a gamepad right-stick poll. -/
inductive LookEvent where
  | mouse (isPointerLocked : Bool) (movementX movementY : ℝ)
  | stick (rsx rsy : ℝ)

/-- Apply one look event to the `(yaw, pitch)` accumulators. -/
noncomputable def applyLook (s : ℝ × ℝ) : LookEvent → ℝ × ℝ
  | .mouse locked mx my => handleMouseMove locked s.1 s.2 mx my
  | .stick rsx rsy => gamepadLook s.1 s.2 rsx rsy

/-- The `(yaw, pitch)` state after a sequence of look events, starting from
the initial `yaw = 0`, `pitch = 0`. -/
noncomputable def lookAfter (events : List LookEvent) : ℝ × ℝ :=
  events.foldl applyLook (0, 0)

/-- The digit branch of `handleKeyDown`: for a `DigitN` key the slot is
`parseInt(N) - 1`, stored only when `0 ≤ slot < 9`. -/
def handleDigitKey (n : ℕ) (selectedSlot : ℕ) : ℕ :=
  if 0 ≤ (n : ℤ) - 1 ∧ (n : ℤ) - 1 < 9 then ((n : ℤ) - 1).toNat else selectedSlot

/-- The arm-swing speed update of one tick: `0.15` when moving, else decay
by the factor `0.9`. -/
def armSwingTick (isMoving : Bool) (armSwingSpeed : ℚ) : ℚ :=
  if isMoving then 0.15 else armSwingSpeed * 0.9

/-- The swing speed after `n` consecutive idle ticks from speed `s`. -/
def armSpeedAfterIdle (s : ℚ) : ℕ → ℚ
  | 0 => s
  | n + 1 => armSwingTick false (armSpeedAfterIdle s n)

/- ### Theorems -/

/-- `|sin a · cos b| ≤ 1`, the bound behind each octave term. -/
theorem sin_mul_cos_bounds (a b : ℝ) :
    -1 ≤ Real.sin a * Real.cos b ∧ Real.sin a * Real.cos b ≤ 1 := by
  have hs₁ := Real.neg_one_le_sin a
  have hs₂ := Real.sin_le_one a
  have hc₁ := Real.neg_one_le_cos b
  have hc₂ := Real.cos_le_one b
  constructor <;> nlinarith

/-- C1: the height field is pure and deterministic — repeated evaluation
at the same `(x, z)` yields the identical value — and its value is always
within the analytic bound `[-5.25, 5.25] = ±(3 + 1.5 + 0.75)`. -/
theorem noise_deterministic_and_bounded (x z : ℝ) :
    noise x z = noise x z ∧ -5.25 ≤ noise x z ∧ noise x z ≤ 5.25 := by
  refine ⟨rfl, ?_, ?_⟩ <;>
  · have h₁ := sin_mul_cos_bounds (x * 0.1) (z * 0.1)
    have h₂ := sin_mul_cos_bounds (x * 0.1 * 2) (z * 0.1 * 2)
    have h₃ := sin_mul_cos_bounds (x * 0.1 * 4) (z * 0.1 * 4)
    simp only [noise]
    nlinarith [h₁.1, h₁.2, h₂.1, h₂.2, h₃.1, h₃.2]

/-- The chunk builder's double loop enumerates exactly `CHUNK_SIZE² = 144`
columns. -/
theorem chunkColumns_length (cx cz : ℤ) : (chunkColumns cx cz).length = 144 := by
  rfl

/-- Every local column `(x, z)` of a chunk appears among its world columns. -/
theorem chunkColumns_mem (cx cz : ℤ) (x z : ℕ) (hx : x < CHUNK_SIZE)
    (hz : z < CHUNK_SIZE) :
    (cx * (CHUNK_SIZE : ℤ) + (x : ℤ), cz * (CHUNK_SIZE : ℤ) + (z : ℤ)) ∈
      chunkColumns cx cz := by
  rw [chunkColumns]
  refine List.mem_flatMap.mpr ⟨x, List.mem_range.mpr hx, ?_⟩
  exact List.mem_map.mpr ⟨z, List.mem_range.mpr hz, rfl⟩

/-- The first column pushed into `geometries` is local `(0, 0)`. -/
theorem chunkColumns_headD (cx cz : ℤ) :
    (chunkColumns cx cz).headD (0, 0) = (cx * 12, cz * 12) := by
  have h : (chunkColumns cx cz).headD (0, 0) =
      (cx * 12 + ((0 : ℕ) : ℤ), cz * 12 + ((0 : ℕ) : ℤ)) := rfl
  rw [h]
  norm_num

/-- One geometry per column. -/
theorem chunkGeometries_length (cx cz : ℤ) :
    (chunkGeometries cx cz).length = 144 := by
  rw [chunkGeometries, List.length_map, chunkColumns_length]

/-- Flattening singleton geometries recovers the mapped list. -/
theorem flatten_map_singleton {α β : Type} (l : List α) (f : α → β) :
    (l.map fun a => [f a]).flatten = l.map f := by
  induction l with
  | nil => rfl
  | cons a t ih => simp [ih]

/-- With the merge utility available, the merged chunk is exactly one
positioned cube per column. -/
theorem createMergedChunk_true_eq (cx cz : ℤ) :
    createMergedChunk true cx cz =
      (chunkColumns cx cz).map fun c => blockAt c.1 c.2 := by
  rw [createMergedChunk,
    if_pos (by rw [chunkGeometries_length]; norm_num :
      0 < (chunkGeometries cx cz).length)]
  rw [if_pos rfl, chunkGeometries, flatten_map_singleton]

/-- A merged chunk holds exactly 144 cubes. -/
theorem createMergedChunk_true_length (cx cz : ℤ) :
    (createMergedChunk true cx cz).length = 144 := by
  rw [createMergedChunk_true_eq, List.length_map, chunkColumns_length]

/-- The world assembler visits `(2·RENDER_DISTANCE)² = 36` chunk coordinates. -/
theorem worldChunkCoords_length : worldChunkCoords.length = 36 := by
  rfl

/-- Total block count of the assembled world with merging available. -/
theorem worldBlocks_true_length : (worldBlocks true).length = 5184 := by
  rw [worldBlocks, List.length_flatMap]
  have h : (worldChunkCoords.map
        (List.length ∘ fun c => createMergedChunk true c.1 c.2))
      = worldChunkCoords.map fun _ => 144 :=
    List.map_congr_left fun c _ => by
      simp only [Function.comp_apply, createMergedChunk_true_length]
  rw [h, List.map_const', List.sum_replicate, worldChunkCoords_length]
  norm_num

/-- C2: `createMergedChunk(cx, cz)` yields exactly `CHUNK_SIZE² = 144`
positioned unit cubes, the cube of local column `(x, z)` being centred at
`(cx·12 + x, ⌊noise(worldX, worldZ) + 8⌋, cz·12 + z)`; the world loop visits
`(2·3)² = 36` chunk coordinates for `36·144 = 5184` blocks in total. -/
theorem chunk_and_world_block_counts (cx cz : ℤ) :
    (createMergedChunk true cx cz).length = CHUNK_SIZE ^ 2 ∧
    (createMergedChunk true cx cz).length = 144 ∧
    (∀ x z : ℕ, x < CHUNK_SIZE → z < CHUNK_SIZE →
      (cx * 12 + (x : ℤ), blockHeight (cx * 12 + (x : ℤ)) (cz * 12 + (z : ℤ)),
          cz * 12 + (z : ℤ)) ∈ createMergedChunk true cx cz) ∧
    worldChunkCoords.length = 36 ∧ (worldBlocks true).length = 5184 := by
  refine ⟨by rw [createMergedChunk_true_length]; rfl,
    createMergedChunk_true_length cx cz, ?_,
    worldChunkCoords_length, worldBlocks_true_length⟩
  intro x z hx hz
  rw [createMergedChunk_true_eq]
  refine List.mem_map.mpr ⟨(cx * 12 + (x : ℤ), cz * 12 + (z : ℤ)), ?_, rfl⟩
  exact chunkColumns_mem cx cz x z hx hz

/-- Witness for C2 at chunk `(0, 0)`, local column `(5, 7)`. -/
theorem chunk_and_world_block_counts_witness :
    (createMergedChunk true 0 0).length = 144 ∧
    ((0 : ℤ) * 12 + ((5 : ℕ) : ℤ),
        blockHeight ((0 : ℤ) * 12 + ((5 : ℕ) : ℤ)) ((0 : ℤ) * 12 + ((7 : ℕ) : ℤ)),
        (0 : ℤ) * 12 + ((7 : ℕ) : ℤ)) ∈ createMergedChunk true 0 0 :=
  ⟨(chunk_and_world_block_counts 0 0).2.1,
    (chunk_and_world_block_counts 0 0).2.2.1 5 7 (by decide) (by decide)⟩

/-- Each merged chunk has length one in fallback mode. -/
theorem createMergedChunk_false_length (cx cz : ℤ) :
    (createMergedChunk false cx cz).length = 1 := by
  rfl

/-- The world still assembles 36 one-block chunks in fallback mode. -/
theorem worldBlocks_false_length : (worldBlocks false).length = 36 := by
  rw [worldBlocks, List.length_flatMap]
  have h : (worldChunkCoords.map
        (List.length ∘ fun c => createMergedChunk false c.1 c.2))
      = worldChunkCoords.map fun _ => 1 :=
    List.map_congr_left fun c _ => by
      simp only [Function.comp_apply, createMergedChunk_false_length]
  rw [h, List.map_const', List.sum_replicate, worldChunkCoords_length]
  norm_num

/-- C9: with the merge utility unavailable the chunk builder still returns a
geometry — exactly the first block's geometry, the cube of local column
`(0, 0)` — rather than failing, and world assembly still completes over all
36 chunk coordinates. -/
theorem merge_fallback_uses_first_block (cx cz : ℤ) :
    createMergedChunk false cx cz = [blockAt (cx * 12) (cz * 12)] ∧
    (createMergedChunk false cx cz).length = 1 ∧
    worldChunkCoords.length = 36 ∧ (worldBlocks false).length = 36 := by
  have h : createMergedChunk false cx cz =
      [blockAt (cx * 12 + ((0 : ℕ) : ℤ)) (cz * 12 + ((0 : ℕ) : ℤ))] := rfl
  have h' : createMergedChunk false cx cz = [blockAt (cx * 12) (cz * 12)] := by
    rw [h]; norm_num
  exact ⟨h', createMergedChunk_false_length cx cz,
    worldChunkCoords_length, worldBlocks_false_length⟩

/-- The norm of one tick's velocity is `0.15` times the norm of the
normalized planar direction `(a, b)`. -/
theorem velocity_length_formula (yaw a b : ℝ) :
    (((⟨0, 0, 0⟩ : Vec3).addScaledVector (forwardVec yaw)
        (-b * 0.15)).addScaledVector (rightVec yaw) (a * 0.15)).length =
      0.15 * Real.sqrt (a ^ 2 + b ^ 2) := by
  have hsc := Real.sin_sq_add_cos_sq yaw
  simp only [Vec3.length, Vec3.addScaledVector, forwardVec, rightVec,
    Real.sin_add_pi_div_two, Real.cos_add_pi_div_two]
  have h : (0 + Real.sin yaw * (-b * 0.15) + Real.cos yaw * (a * 0.15)) ^ 2 +
      (0 + 0 * (-b * 0.15) + 0 * (a * 0.15)) ^ 2 +
      (0 + Real.cos yaw * (-b * 0.15) + -Real.sin yaw * (a * 0.15)) ^ 2 =
      0.15 ^ 2 * (a ^ 2 + b ^ 2) := by
    linear_combination (0.15 ^ 2 * (a ^ 2 + b ^ 2)) * hsc
  rw [h, Real.sqrt_mul (by positivity), Real.sqrt_sq (by norm_num)]

/-- Forward + right input yields the raw direction `(1, 0, -1)`. -/
theorem rawDirection_diag :
    rawDirection ⟨true, false, false, true, 0, 0⟩ = ⟨1, 0, -1⟩ := by
  simp only [rawDirection]
  norm_num

/-- Forward-only input yields the raw direction `(0, 0, -1)`. -/
theorem rawDirection_fwd :
    rawDirection ⟨true, false, false, false, 0, 0⟩ = ⟨0, 0, -1⟩ := by
  simp only [rawDirection]
  norm_num

/-- Normalizing the diagonal raw direction gives components `±1/√2`. -/
theorem normalize_diag :
    (Vec3.normalize ⟨1, 0, -1⟩).x = 1 / Real.sqrt 2 ∧
    (Vec3.normalize ⟨1, 0, -1⟩).z = -1 / Real.sqrt 2 := by
  have hl : (Vec3.length ⟨1, 0, -1⟩) = Real.sqrt 2 := by
    simp only [Vec3.length]
    norm_num
  have hne : Real.sqrt 2 ≠ 0 := by positivity
  constructor <;> simp [Vec3.normalize, hl, hne]

/-- The axis-aligned raw direction is already a unit vector. -/
theorem normalize_fwd : Vec3.normalize ⟨0, 0, -1⟩ = ⟨0, 0, -1⟩ := by
  have hl : (Vec3.length ⟨0, 0, -1⟩) = 1 := by
    simp only [Vec3.length]
    norm_num
  simp [Vec3.normalize, hl]

/-- C4: with forward and right both active the per-tick displacement
magnitude is `0.15`, identical to the magnitude under axis-aligned
(forward-only) input, because the direction vector is normalized before
being scaled by the speed. -/
theorem diagonal_speed_matches_axis_speed (yaw : ℝ) :
    (tickVelocity yaw ⟨true, false, false, true, 0, 0⟩).length = 0.15 ∧
    (tickVelocity yaw ⟨true, false, false, false, 0, 0⟩).length = 0.15 ∧
    (tickVelocity yaw ⟨true, false, false, true, 0, 0⟩).length =
      (tickVelocity yaw ⟨true, false, false, false, 0, 0⟩).length := by
  have h₁ : (tickVelocity yaw ⟨true, false, false, true, 0, 0⟩).length = 0.15 := by
    rw [tickVelocity, rawDirection_diag, normalize_diag.1, normalize_diag.2,
      velocity_length_formula]
    rw [show (1 / Real.sqrt 2) ^ 2 + (-1 / Real.sqrt 2) ^ 2 = 1 by
      rw [div_pow, div_pow, Real.sq_sqrt (by norm_num : (0:ℝ) ≤ 2)]
      norm_num]
    rw [Real.sqrt_one, mul_one]
  have h₂ : (tickVelocity yaw ⟨true, false, false, false, 0, 0⟩).length = 0.15 := by
    rw [tickVelocity, rawDirection_fwd, normalize_fwd,
      velocity_length_formula]
    norm_num
  exact ⟨h₁, h₂, h₁.trans h₂.symm⟩

/-- C6: the per-tick velocity has zero vertical component for every yaw and
every movement input, so a frame tick never changes the camera's altitude. -/
theorem camera_tick_preserves_altitude (pos : Vec3) (yaw : ℝ) (inp : MoveInput) :
    (tickVelocity yaw inp).y = 0 ∧ (cameraTickPos pos yaw inp).y = pos.y := by
  have h : (tickVelocity yaw inp).y = 0 := by
    simp [tickVelocity, Vec3.addScaledVector, forwardVec, rightVec]
  exact ⟨h, by simp [cameraTickPos, Vec3.add, h]⟩

/-- With no key held and zero direction components, one tick is a no-op. -/
theorem tick_noop_of_no_input (inp : MoveInput) (hw : inp.keyW = false)
    (hs : inp.keyS = false) (ha : inp.keyA = false) (hd : inp.keyD = false)
    (hx : |inp.stickX| ≤ 0.1) (hy : |inp.stickY| ≤ 0.1) :
    rawDirection inp = ⟨0, 0, 0⟩ ∧
    (rawDirection inp).normalize = ⟨0, 0, 0⟩ ∧
    ∀ pos yaw, cameraTickPos pos yaw inp = pos := by
  obtain ⟨hx₁, hx₂⟩ := abs_le.mp hx
  obtain ⟨hy₁, hy₂⟩ := abs_le.mp hy
  have hraw : rawDirection inp = ⟨0, 0, 0⟩ := by
    rw [rawDirection, hw, hs, ha, hd]
    rw [if_neg (by push_neg; exact ⟨Bool.false_ne_true, by linarith⟩),
      if_neg (by push_neg; exact ⟨Bool.false_ne_true, by linarith⟩),
      if_neg (by push_neg; exact ⟨Bool.false_ne_true, by linarith⟩),
      if_neg (by push_neg; exact ⟨Bool.false_ne_true, by linarith⟩)]
  have hzero : (Vec3.length ⟨0, 0, 0⟩) = 0 := by
    simp [Vec3.length]
  have hnorm : (rawDirection inp).normalize = ⟨0, 0, 0⟩ := by
    rw [hraw, Vec3.normalize, hzero]
    norm_num
  refine ⟨hraw, hnorm, fun pos yaw => ?_⟩
  have hvel : tickVelocity yaw inp = ⟨0, 0, 0⟩ := by
    rw [tickVelocity, hnorm]
    simp [Vec3.addScaledVector, forwardVec, rightVec]
  cases pos
  simp [cameraTickPos, hvel, Vec3.add]

/-- C10: with no WASD key held and both left-stick axes inside the 0.1
dead-zone (so the cached stick values are zeroed), the direction vector of
the tick is the zero vector, normalizing it is safe (it stays zero — no
division by zero occurs, as `normalize` divides by `length || 1`), and the
camera position is left completely unchanged. -/
theorem no_input_tick_leaves_camera (rx ry : ℝ)
    (hx : |rx| ≤ 0.1) (hy : |ry| ≤ 0.1) :
    rawDirection ⟨false, false, false, false, applyDeadZone rx, applyDeadZone ry⟩ =
      ⟨0, 0, 0⟩ ∧
    (rawDirection
        ⟨false, false, false, false, applyDeadZone rx, applyDeadZone ry⟩).normalize =
      ⟨0, 0, 0⟩ ∧
    ∀ pos yaw, cameraTickPos pos yaw
        ⟨false, false, false, false, applyDeadZone rx, applyDeadZone ry⟩ = pos := by
  have hdx : applyDeadZone rx = 0 := by
    rw [applyDeadZone, if_neg (by push_neg; exact hx)]
  have hdy : applyDeadZone ry = 0 := by
    rw [applyDeadZone, if_neg (by push_neg; exact hy)]
  exact tick_noop_of_no_input _ rfl rfl rfl rfl
    (by rw [hdx]; norm_num) (by rw [hdy]; norm_num)

/-- Witness for C10 at raw stick deflection `(0.05, 0)`. -/
theorem no_input_tick_leaves_camera_witness :
    rawDirection
        ⟨false, false, false, false, applyDeadZone 0.05, applyDeadZone 0⟩ =
      ⟨0, 0, 0⟩ ∧
    (rawDirection
        ⟨false, false, false, false, applyDeadZone 0.05, applyDeadZone 0⟩).normalize =
      ⟨0, 0, 0⟩ ∧
    ∀ pos yaw, cameraTickPos pos yaw
        ⟨false, false, false, false, applyDeadZone 0.05, applyDeadZone 0⟩ = pos :=
  no_input_tick_leaves_camera 0.05 0 (by norm_num [abs_le]) (by norm_num)

/-- `clampPitch` always lands in `[-π/2, π/2]`. -/
theorem clampPitch_mem (p : ℝ) :
    -(Real.pi / 2) ≤ clampPitch p ∧ clampPitch p ≤ Real.pi / 2 := by
  have hpi : (0 : ℝ) < Real.pi / 2 := by positivity
  exact ⟨le_max_left _ _, max_le (by linarith) (min_le_left _ _)⟩

/-- Every look event preserves the pitch bound. -/
theorem applyLook_preserves (s : ℝ × ℝ) (e : LookEvent)
    (h₁ : -(Real.pi / 2) ≤ s.2) (h₂ : s.2 ≤ Real.pi / 2) :
    -(Real.pi / 2) ≤ (applyLook s e).2 ∧ (applyLook s e).2 ≤ Real.pi / 2 := by
  cases e with
  | mouse locked mx my =>
    cases locked with
    | false => exact ⟨h₁, h₂⟩
    | true => exact clampPitch_mem _
  | stick rsx rsy => exact clampPitch_mem _

/-- Folding look events from any in-bound pitch keeps the pitch in bound. -/
theorem lookFold_bounded (l : List LookEvent) (s : ℝ × ℝ)
    (h₁ : -(Real.pi / 2) ≤ s.2) (h₂ : s.2 ≤ Real.pi / 2) :
    -(Real.pi / 2) ≤ (l.foldl applyLook s).2 ∧
      (l.foldl applyLook s).2 ≤ Real.pi / 2 := by
  induction l generalizing s with
  | nil => exact ⟨h₁, h₂⟩
  | cons e t ih =>
    obtain ⟨g₁, g₂⟩ := applyLook_preserves s e h₁ h₂
    exact ih _ g₁ g₂

/-- C3: after any sequence of pitch updates — mouse moves (locked or not)
and gamepad right-stick polls, in any order and of any magnitude — the
pitch lies within `[-π/2, π/2]`; moreover every single pitch-writing
operation maintains that clamp from any in-bound state. -/
theorem pitch_clamp_invariant (events : List LookEvent) :
    (-(Real.pi / 2) ≤ (lookAfter events).2 ∧ (lookAfter events).2 ≤ Real.pi / 2) ∧
    ∀ (s : ℝ × ℝ) (e : LookEvent), -(Real.pi / 2) ≤ s.2 → s.2 ≤ Real.pi / 2 →
      -(Real.pi / 2) ≤ (applyLook s e).2 ∧ (applyLook s e).2 ≤ Real.pi / 2 := by
  refine ⟨?_, applyLook_preserves⟩
  rw [lookAfter]
  refine lookFold_bounded events (0, 0) ?_ ?_
  · show -(Real.pi / 2) ≤ (0 : ℝ)
    linarith [Real.pi_pos]
  · show (0 : ℝ) ≤ Real.pi / 2
    linarith [Real.pi_pos]

/-- Witness for C3: a huge locked mouse drag followed by a huge stick
deflection, and one stick event applied at pitch 0. -/
theorem pitch_clamp_invariant_witness :
    (-(Real.pi / 2) ≤ (lookAfter [LookEvent.mouse true 0 5000,
        LookEvent.stick 0 100]).2 ∧
      (lookAfter [LookEvent.mouse true 0 5000, LookEvent.stick 0 100]).2 ≤
        Real.pi / 2) ∧
    (-(Real.pi / 2) ≤ (applyLook (0, 0) (LookEvent.stick 0 100)).2 ∧
      (applyLook (0, 0) (LookEvent.stick 0 100)).2 ≤ Real.pi / 2) :=
  ⟨(pitch_clamp_invariant [LookEvent.mouse true 0 5000,
      LookEvent.stick 0 100]).1,
    (pitch_clamp_invariant []).2 (0, 0) (LookEvent.stick 0 100)
      (by show -(Real.pi / 2) ≤ (0 : ℝ); linarith [Real.pi_pos])
      (by show (0 : ℝ) ≤ Real.pi / 2; linarith [Real.pi_pos])⟩

/-- C5: with pointer lock disengaged a mouse-move event changes neither yaw
nor pitch; with it engaged, `movementX = Δ` changes yaw by exactly
`-Δ·0.002`. -/
theorem mouse_look_gating (yaw pitch mx my : ℝ) :
    handleMouseMove false yaw pitch mx my = (yaw, pitch) ∧
    (handleMouseMove true yaw pitch mx my).1 = yaw - mx * 0.002 := by
  constructor <;> simp [handleMouseMove]

/-- C7: digit key `N` with `1 ≤ N ≤ 9` selects hotbar slot `N - 1`; a digit
value below 1 or above 9 leaves the selected slot unchanged. -/
theorem digit_key_selects_slot (n cur : ℕ) :
    (1 ≤ n → n ≤ 9 → handleDigitKey n cur = n - 1) ∧
    ((n = 0 ∨ 9 < n) → handleDigitKey n cur = cur) := by
  constructor
  · intro h1 h9
    rw [handleDigitKey, if_pos ⟨by omega, by omega⟩]
    omega
  · intro h
    rw [handleDigitKey, if_neg (by omega)]

/-- Witness for C7: digit 5 selects slot 4; digit 0 leaves slot 7 alone. -/
theorem digit_key_selects_slot_witness :
    handleDigitKey 5 0 = 5 - 1 ∧ handleDigitKey 0 7 = 7 :=
  ⟨(digit_key_selects_slot 5 0).1 (by decide) (by decide),
    (digit_key_selects_slot 0 7).2 (Or.inl rfl)⟩

/-- Closed form of the idle decay. -/
theorem armSpeedAfterIdle_eq (s : ℚ) (n : ℕ) :
    armSpeedAfterIdle s n = s * 0.9 ^ n := by
  induction n with
  | zero => simp [armSpeedAfterIdle]
  | succ n ih =>
    rw [armSpeedAfterIdle, armSwingTick, if_neg (by simp), ih, pow_succ]
    ring

/-- C8: a moving tick forces the swing speed to `0.15`; `n` consecutive
idle ticks from speed `S` leave exactly `S·0.9ⁿ`, which is strictly
positive for every `n` whenever `S > 0`. -/
theorem arm_swing_dynamics (s : ℚ) (n : ℕ) :
    armSwingTick true s = 0.15 ∧
    armSpeedAfterIdle s n = s * 0.9 ^ n ∧
    (0 < s → 0 < armSpeedAfterIdle s n) := by
  refine ⟨rfl, armSpeedAfterIdle_eq s n, fun hs => ?_⟩
  rw [armSpeedAfterIdle_eq]
  exact mul_pos hs (by positivity)

/-- Witness for C8 at `S = 1`, `n = 2`. -/
theorem arm_swing_dynamics_witness :
    armSwingTick true 1 = 0.15 ∧
    armSpeedAfterIdle 1 2 = 1 * 0.9 ^ 2 ∧
    0 < armSpeedAfterIdle 1 2 :=
  ⟨(arm_swing_dynamics 1 2).1, (arm_swing_dynamics 1 2).2.1,
    (arm_swing_dynamics 1 2).2.2 (by norm_num)⟩
